import Mathlib

/-!
Verification development for the SpacetimeDB Agario demo client
(`client/src/App.tsx`, `client/src/Game.tsx`).

The client state is embedded shallowly:
* the JavaScript `Map` objects backing the player snapshot store and the
  mesh maps are association lists with `Map.set` / `Map.delete` semantics;
* the food snapshot store is a plain list, exactly as in `useFood`;
* floating-point coordinates, radii and elapsed times become rationals
  (the claims only involve ring operations, `min`/`max` and comparisons,
  which the JS doubles perform exactly on the inputs considered);
* the Three.js side effects (geometry/material allocation and disposal,
  scene add/remove) are recorded as explicit operation lists so that the
  resource-lifecycle claims can be stated about them.
-/

namespace Agario

/-- RGB color with one integer per channel, as in the generated bindings. -/
structure Color where
  r : ℤ
  g : ℤ
  b : ℤ
deriving DecidableEq, Repr

/-- 2D position (`Position` in `module_bindings`). -/
structure Pos where
  x : ℚ
  y : ℚ
deriving DecidableEq, Repr

/-- Player row of the `player` table, as used by the client. -/
structure Player where
  identityHex : String
  position : Pos
  radius : ℚ
  color : Color
  score : ℤ
  online : Bool
deriving DecidableEq, Repr

/-- Food row of the `food` table, as used by the client. -/
structure Food where
  id : ℕ
  position : Pos
  color : Color
deriving DecidableEq, Repr

/-- `const WORLD_SIZE = 1000` (Game.tsx). -/
def WORLD_SIZE : ℚ := 1000

/-- `const CAMERA_SIZE = 400` (Game.tsx). -/
def CAMERA_SIZE : ℚ := 400

/-- `const FOOD_RADIUS = 5` (Game.tsx). -/
def FOOD_RADIUS : ℚ := 5

/-- `const MOVE_SPEED = 200` (Game.tsx). -/
def MOVE_SPEED : ℚ := 200

/-- The four movement keys tracked by the input handler. -/
def keyW : String := "w"

/-- Movement key "a". -/
def keyA : String := "a"

/-- Movement key "s". -/
def keyS : String := "s"

/-- Movement key "d". -/
def keyD : String := "d"

section JsMap

variable {κ α : Type} [DecidableEq κ]

/-- Lookup in an association list modelling a JS `Map` (`m.get(k)`). -/
def plookup : List (κ × α) → κ → Option α
  | [], _ => none
  | (k, v) :: rest, k0 => if k = k0 then some v else plookup rest k0

/-- `m.set(k, v)`: replace the value at an existing key in place,
otherwise append the new binding at the end (JS `Map` insertion order). -/
def jsMapSet : List (κ × α) → κ → α → List (κ × α)
  | [], k, v => [(k, v)]
  | (k0, v0) :: rest, k, v =>
      if k0 = k then (k, v) :: rest else (k0, v0) :: jsMapSet rest k v

/-- `m.delete(k)`: drop the binding at `k` (the first one, which is the
only one in a genuine `Map`). -/
def jsMapDelete : List (κ × α) → κ → List (κ × α)
  | [], _ => []
  | (k0, v0) :: rest, k =>
      if k0 = k then rest else (k0, v0) :: jsMapDelete rest k

/-- Key list of an association list. -/
def keysOf (m : List (κ × α)) : List κ :=
  m.map Prod.fst

end JsMap

/-- Notifications delivered by the `player` table subscription
(`usePlayer` in App.tsx). -/
inductive PlayerEvent
  | insert (p : Player)
  | update (oldP newP : Player)
  | delete (p : Player)
deriving DecidableEq, Repr

/-- One step of the `usePlayer` store (App.tsx 19–40):
insert is `new Map(prev).set(key, player)`; update deletes the old key and
sets the new one; delete removes the key. -/
def applyPlayerEvent (m : List (String × Player)) : PlayerEvent → List (String × Player)
  | .insert p => jsMapSet m p.identityHex p
  | .update oldP newP => jsMapSet (jsMapDelete m oldP.identityHex) newP.identityHex newP
  | .delete p => jsMapDelete m p.identityHex

/-- Notifications delivered by the `food` table subscription
(`useFood` in App.tsx). -/
inductive FoodEvent
  | insert (f : Food)
  | update (oldF newF : Food)
  | delete (f : Food)
deriving DecidableEq, Repr

/-- `onUpdate` body of `useFood` (App.tsx 62–72): `findIndex` on the old
id; if found, replace that element, otherwise return the list unchanged. -/
def foodReplaceFirst (oldId : ℕ) (newF : Food) : List Food → List Food
  | [] => []
  | f :: rest => if f.id = oldId then newF :: rest else f :: foodReplaceFirst oldId newF rest

/-- One step of the `useFood` store (App.tsx 57–77): insert appends,
update replaces the first element with the old id (no-op when absent),
delete filters out every element with the id. -/
def applyFoodEvent (l : List Food) : FoodEvent → List Food
  | .insert f => l ++ [f]
  | .update oldF newF => foodReplaceFirst oldF.id newF l
  | .delete f => l.filter (fun g => g.id ≠ f.id)

/-- Render resource for one player: a mesh caching the last-applied radius
and color (`currentRadius` / `currentColor` in Game.tsx), its transform
position, and the optional outline-ring decoration (inner radius recorded)
attached when the mesh belongs to the local identity. -/
structure PMesh where
  currentRadius : ℚ
  currentColor : Color
  pos : Pos
  outline : Option ℚ
deriving DecidableEq, Repr

/-- GPU / scene operations performed by the player reconciliation effect,
tagged with the owning player id. -/
inductive POp
  | sceneRemove (id : String)
  | disposeGeom (id : String)
  | allocGeom (id : String) (radius : ℚ)
  | allocMat (id : String) (c : Color)
  | recolorMat (id : String) (c : Color)
deriving DecidableEq, Repr

/-- Garbage pass of the player effect (Game.tsx 122–128): every mesh whose
id is missing from the `players` map is removed from the scene and dropped
from the mesh map. No dispose call is made on this path. -/
def playerGarbagePass (meshes : List (String × PMesh)) (ps : List (String × Player)) :
    List (String × PMesh) × List POp :=
  match meshes with
  | [] => ([], [])
  | (pid, m) :: rest =>
      let recur := playerGarbagePass rest ps
      if ps.any (fun q => q.1 = pid) then ((pid, m) :: recur.1, recur.2)
      else (recur.1, POp.sceneRemove pid :: recur.2)

/-- Comparator of the upsert pass (Game.tsx 133):
`.sort(([, a], [, b]) => a.radius - b.radius)`, i.e. ascending radius. -/
def radLE (a b : String × Player) : Prop :=
  a.2.radius ≤ b.2.radius

instance : DecidableRel radLE :=
  fun a b => inferInstanceAs (Decidable (a.2.radius ≤ b.2.radius))

instance : IsTotal (String × Player) radLE :=
  ⟨fun a b => le_total a.2.radius b.2.radius⟩

instance : IsTrans (String × Player) radLE :=
  ⟨fun _ _ _ hab hbc => le_trans hab hbc⟩

/-- `sortedPlayers` (Game.tsx 131–133): the entries of the player map
filtered to online players and sorted by ascending radius. -/
def sortedPlayers (ps : List (String × Player)) : List (String × Player) :=
  List.insertionSort radLE (ps.filter (fun q => q.2.online))

/-- Outline material color (`0xffffff`, Game.tsx 165–167). -/
def whiteColor : Color := ⟨255, 255, 255⟩

/-- State threaded through the player effect: the mesh map
(`playerMeshesRef`) and the `myPlayerRef` cell. -/
structure PlayerRecState where
  meshes : List (String × PMesh)
  myPlayer : Option Player
deriving DecidableEq, Repr

/-- Body of the upsert loop for one player (Game.tsx 135–232).
If no mesh exists, allocate geometry and material at the current radius
and color, cache them, attach the outline ring (and set `myPlayerRef`)
when the id is the local identity. Otherwise compare against the cached
values: rebuild geometry (dispose + allocate, outline included for the
local player) only when the radius differs, recolor the material only
when the color differs. The position is written unconditionally. -/
def playerUpsertStep (myId : String) (st : PlayerRecState) (pid : String) (p : Player) :
    PlayerRecState × List POp :=
  match plookup st.meshes pid with
  | none =>
      let mesh : PMesh :=
        { currentRadius := p.radius
          currentColor := p.color
          pos := p.position
          outline := if pid = myId then some p.radius else none }
      let ops :=
        POp.allocGeom pid p.radius :: POp.allocMat pid p.color ::
          (if pid = myId then [POp.allocGeom pid p.radius, POp.allocMat pid whiteColor] else [])
      ({ meshes := jsMapSet st.meshes pid mesh
         myPlayer := if pid = myId then some p else st.myPlayer }, ops)
  | some mesh =>
      let radiusOps :=
        if mesh.currentRadius = p.radius then []
        else
          POp.disposeGeom pid :: POp.allocGeom pid p.radius ::
            (if pid = myId ∧ mesh.outline.isSome = true
             then [POp.disposeGeom pid, POp.allocGeom pid p.radius]
             else [])
      let colorOps :=
        if mesh.currentColor = p.color then [] else [POp.recolorMat pid p.color]
      let newOutline :=
        if mesh.currentRadius ≠ p.radius ∧ pid = myId ∧ mesh.outline.isSome = true
        then some p.radius else mesh.outline
      let mesh1 : PMesh :=
        { currentRadius := p.radius
          currentColor := p.color
          pos := p.position
          outline := newOutline }
      ({ meshes := jsMapSet st.meshes pid mesh1
         myPlayer := st.myPlayer }, radiusOps ++ colorOps)

/-- The upsert loop (`for (const [playerId, player] of sortedPlayers)`). -/
def playerUpsertPass (myId : String) (st : PlayerRecState) :
    List (String × Player) → PlayerRecState × List POp
  | [] => (st, [])
  | (pid, p) :: rest =>
      let head := playerUpsertStep myId st pid p
      let tail := playerUpsertPass myId head.1 rest
      (tail.1, head.2 ++ tail.2)

/-- The whole player reconciliation effect (Game.tsx 116–233): garbage
pass over the mesh map, then the upsert pass over the online players in
ascending radius order. -/
def playerReconcile (myId : String) (st : PlayerRecState) (ps : List (String × Player)) :
    PlayerRecState × List POp :=
  let garbage := playerGarbagePass st.meshes ps
  let upsert := playerUpsertPass myId { st with meshes := garbage.1 } (sortedPlayers ps)
  (upsert.1, garbage.2 ++ upsert.2)

/-- Render resource for one food item: material color (set once at
creation, never updated) and transform position. -/
structure FMesh where
  color : Color
  pos : Pos
deriving DecidableEq, Repr

/-- GPU / scene operations performed by the food reconciliation effect. -/
inductive FOp
  | sceneRemove (id : ℕ)
  | disposeGeom (id : ℕ)
  | disposeMat (id : ℕ)
  | allocGeom (id : ℕ) (radius : ℚ)
  | allocMat (id : ℕ) (c : Color)
deriving DecidableEq, Repr

/-- Garbage pass of the food effect (Game.tsx 243–253): every mesh whose
id is not among the current food ids is removed from the scene, its
geometry and material are disposed, and the map entry is dropped. -/
def foodGarbagePass (meshes : List (ℕ × FMesh)) (ids : List ℕ) :
    List (ℕ × FMesh) × List FOp :=
  match meshes with
  | [] => ([], [])
  | (fid, m) :: rest =>
      let recur := foodGarbagePass rest ids
      if ids.contains fid then ((fid, m) :: recur.1, recur.2)
      else (recur.1,
        FOp.sceneRemove fid :: FOp.disposeGeom fid :: FOp.disposeMat fid :: recur.2)

/-- Body of the food upsert loop (Game.tsx 256–278): create a mesh
(geometry at `FOOD_RADIUS`, material at the food color) when none exists,
then write the position unconditionally. -/
def foodUpsertStep (meshes : List (ℕ × FMesh)) (f : Food) :
    List (ℕ × FMesh) × List FOp :=
  match plookup meshes f.id with
  | none =>
      (jsMapSet meshes f.id { color := f.color, pos := f.position },
       [FOp.allocGeom f.id FOOD_RADIUS, FOp.allocMat f.id f.color])
  | some m =>
      (jsMapSet meshes f.id { m with pos := f.position }, [])

/-- The food upsert loop (`for (const foodItem of food)`). -/
def foodUpsertPass (meshes : List (ℕ × FMesh)) :
    List Food → List (ℕ × FMesh) × List FOp
  | [] => (meshes, [])
  | f :: rest =>
      let head := foodUpsertStep meshes f
      let tail := foodUpsertPass head.1 rest
      (tail.1, head.2 ++ tail.2)

/-- The whole food reconciliation effect (Game.tsx 236–279). -/
def foodReconcile (meshes : List (ℕ × FMesh)) (food : List Food) :
    List (ℕ × FMesh) × List FOp :=
  let ids := food.map Food.id
  let garbage := foodGarbagePass meshes ids
  let upsert := foodUpsertPass garbage.1 food
  (upsert.1, garbage.2 ++ upsert.2)

/-- X-axis delta of the movement prediction (Game.tsx 316–322):
starts at 0, "a" subtracts and "d" adds `MOVE_SPEED * deltaTime`. -/
def deltaX (keys : List String) (t : ℚ) : ℚ :=
  (0 - (if keys.contains keyA then MOVE_SPEED * t else 0))
    + (if keys.contains keyD then MOVE_SPEED * t else 0)

/-- Y-axis delta of the movement prediction (Game.tsx 316–322):
starts at 0, "w" adds and "s" subtracts `MOVE_SPEED * deltaTime`. -/
def deltaY (keys : List String) (t : ℚ) : ℚ :=
  (0 + (if keys.contains keyW then MOVE_SPEED * t else 0))
    - (if keys.contains keyS then MOVE_SPEED * t else 0)

/-- `Math.max(lo, Math.min(hi, x))`, the clamp idiom used for both the
movement prediction and the camera. -/
def clampQ (lo hi x : ℚ) : ℚ :=
  max lo (min hi x)

/-- Movement-prediction part of `gameLoop` (Game.tsx 314–341): guarded by
`myPlayerRef.current && keysRef.current.size > 0`; when some axis delta is
non-zero and the local player is found in the snapshot store, the
candidate position is clamped per axis to
`[-WORLD_SIZE/2, WORLD_SIZE/2]` and handed to the outbound reducer. -/
def tickSend (keys : List String) (t : ℚ) (myPlayer : Option Player)
    (ps : List (String × Player)) (myId : String) : Option Pos :=
  if myPlayer.isSome = true ∧ keys ≠ [] then
    let dx := deltaX keys t
    let dy := deltaY keys t
    if dx ≠ 0 ∨ dy ≠ 0 then
      match plookup ps myId with
      | some cp =>
          some { x := clampQ (-(WORLD_SIZE / 2)) (WORLD_SIZE / 2) (cp.position.x + dx)
                 y := clampQ (-(WORLD_SIZE / 2)) (WORLD_SIZE / 2) (cp.position.y + dy) }
      | none => none
    else none
  else none

/-- Camera-follow formula of `gameLoop` (Game.tsx 348–370), parametric in
the two constants exactly as they appear in the code: half extents are
derived from the camera size and world size, and the player position is
clamped with min applied first and max second. -/
def cameraTargetGen (worldSize cameraSize : ℚ) (p : Pos) : Pos :=
  let cameraHalfWidth := cameraSize
  let cameraHalfHeight := cameraSize
  let worldHalfSize := worldSize / 2
  let minCameraX := -worldHalfSize + cameraHalfWidth
  let maxCameraX := worldHalfSize - cameraHalfWidth
  let minCameraY := -worldHalfSize + cameraHalfHeight
  let maxCameraY := worldHalfSize - cameraHalfHeight
  { x := max minCameraX (min maxCameraX p.x)
    y := max minCameraY (min maxCameraY p.y) }

/-- The camera target at the shipped constants. -/
def cameraTarget (p : Pos) : Pos :=
  cameraTargetGen WORLD_SIZE CAMERA_SIZE p

/-- Events driving the client: a run of the player reconciliation effect
with a new snapshot, or one `gameLoop` tick with the currently held keys
and the elapsed seconds. -/
inductive GEvent
  | reconcile (ps : List (String × Player))
  | tick (keys : List String) (t : ℚ)
deriving DecidableEq, Repr

/-- Client state threaded across events: mesh map and `myPlayerRef`,
the current player snapshot, the camera position, and the list of
positions sent to the `playerMoved` reducer so far. -/
structure GState where
  prs : PlayerRecState
  players : List (String × Player)
  camera : Pos
  sent : List Pos
deriving DecidableEq, Repr

/-- Initial client state: no meshes, `myPlayerRef` null, empty snapshot,
camera at the origin, nothing sent. -/
def initG : GState :=
  { prs := { meshes := [], myPlayer := none }
    players := []
    camera := ⟨0, 0⟩
    sent := [] }

/-- One event step. A reconcile runs the player effect on the new
snapshot. A tick runs the movement-prediction send and then the camera
block, which (when `myPlayerRef` is set and the local player is in the
store) snaps the camera to the clamped target and refreshes
`myPlayerRef` with the store entry (Game.tsx 344–373). -/
def stepG (myId : String) (st : GState) : GEvent → GState
  | .reconcile ps =>
      { st with prs := (playerReconcile myId st.prs ps).1, players := ps }
  | .tick keys t =>
      let send := tickSend keys t st.prs.myPlayer st.players myId
      match st.prs.myPlayer, plookup st.players myId with
      | some _, some cp =>
          { st with
              prs := { st.prs with myPlayer := some cp }
              camera := cameraTarget cp.position
              sent := st.sent ++ send.toList }
      | _, _ => { st with sent := st.sent ++ send.toList }

/-- Running a list of events from the initial state. -/
def runG (myId : String) (es : List GEvent) : GState :=
  es.foldl (stepG myId) initG

/-- Whether a snapshot contains the local player online. -/
def localOnlineB (myId : String) (ps : List (String × Player)) : Bool :=
  ps.any (fun q => q.1 = myId ∧ q.2.online = true)

/-- Whether some reconcile event in the trace carried the local player
online. -/
def sawOnlineB (myId : String) (es : List GEvent) : Bool :=
  es.any (fun e =>
    match e with
    | .reconcile ps => localOnlineB myId ps
    | .tick _ _ => false)

lemma mem_keysOf_iff {κ α : Type} {m : List (κ × α)} {x : κ} :
    x ∈ keysOf m ↔ ∃ v, (x, v) ∈ m := by
  constructor
  · intro hx
    rcases List.mem_map.mp hx with ⟨q, hq, rfl⟩
    exact ⟨q.2, hq⟩
  · rintro ⟨v, hv⟩
    exact List.mem_map.mpr ⟨(x, v), hv, rfl⟩

section JsMapLemmas

variable {κ α : Type} [DecidableEq κ]

lemma mem_keysOf_jsMapSet {m : List (κ × α)} {k x : κ} {v : α} :
    x ∈ keysOf (jsMapSet m k v) ↔ x ∈ keysOf m ∨ x = k := by
  induction m with
  | nil => simp [jsMapSet, keysOf]
  | cons q rest ih =>
    obtain ⟨k0, v0⟩ := q
    by_cases h : k0 = k
    · subst h
      simp only [jsMapSet, if_pos, keysOf, List.map_cons, List.mem_cons]
      tauto
    · simp only [jsMapSet, if_neg h, keysOf, List.map_cons, List.mem_cons] at ih ⊢
      rw [ih]
      tauto

lemma plookup_jsMapSet {m : List (κ × α)} {k x : κ} {v : α} :
    plookup (jsMapSet m k v) x = if k = x then some v else plookup m x := by
  induction m with
  | nil => simp [jsMapSet, plookup]
  | cons q rest ih =>
    obtain ⟨k0, v0⟩ := q
    by_cases h : k0 = k
    · subst h
      by_cases hx : k0 = x
      · subst hx
        simp [jsMapSet, plookup]
      · simp [jsMapSet, plookup, hx]
    · by_cases hx : k0 = x
      · subst hx
        have hkx : ¬ k = k0 := fun hh => h hh.symm
        simp [jsMapSet, plookup, h, hkx]
      · simp [jsMapSet, plookup, h, hx, ih]

lemma jsMapDelete_of_not_mem {m : List (κ × α)} {k : κ} (h : k ∉ keysOf m) :
    jsMapDelete m k = m := by
  induction m with
  | nil => simp [jsMapDelete]
  | cons q rest ih =>
    obtain ⟨k0, v0⟩ := q
    simp only [keysOf, List.map_cons, List.mem_cons, not_or] at h
    have hne : k0 ≠ k := fun hh => h.1 hh.symm
    simp [jsMapDelete, hne, ih (by simpa [keysOf] using h.2)]

lemma keysOf_jsMapDelete_sublist (m : List (κ × α)) (k : κ) :
    List.Sublist (keysOf (jsMapDelete m k)) (keysOf m) := by
  induction m with
  | nil => simp [jsMapDelete, keysOf]
  | cons q rest ih =>
    obtain ⟨k0, v0⟩ := q
    by_cases h : k0 = k
    · simp only [jsMapDelete, if_pos h, keysOf, List.map_cons]
      exact List.sublist_cons_self k0 (keysOf rest)
    · simpa [jsMapDelete, h, keysOf] using ih.cons₂ k0

lemma nodup_keysOf_jsMapSet {m : List (κ × α)} {k : κ} {v : α}
    (h : (keysOf m).Nodup) : (keysOf (jsMapSet m k v)).Nodup := by
  induction m with
  | nil => simp [jsMapSet, keysOf]
  | cons q rest ih =>
    obtain ⟨k0, v0⟩ := q
    simp only [keysOf, List.map_cons, List.nodup_cons] at h
    by_cases hk : k0 = k
    · subst hk
      simpa [jsMapSet, keysOf] using h
    · have htail := ih h.2
      simp only [jsMapSet, if_neg hk, keysOf, List.map_cons, List.nodup_cons]
      refine ⟨fun hmem => ?_, htail⟩
      rcases (@mem_keysOf_jsMapSet _ _ _ rest k k0 v).mp hmem with hx | rfl
      · exact h.1 hx
      · exact hk rfl

lemma nodup_keysOf_jsMapDelete {m : List (κ × α)} {k : κ}
    (h : (keysOf m).Nodup) : (keysOf (jsMapDelete m k)).Nodup :=
  (keysOf_jsMapDelete_sublist m k).nodup h

end JsMapLemmas

lemma foodReplaceFirst_of_not_mem {l : List Food} {oldId : ℕ} {newF : Food}
    (h : oldId ∉ l.map Food.id) : foodReplaceFirst oldId newF l = l := by
  induction l with
  | nil => simp [foodReplaceFirst]
  | cons f rest ih =>
    simp only [List.map_cons, List.mem_cons, not_or] at h
    have hne : f.id ≠ oldId := fun hh => h.1 hh.symm
    simp [foodReplaceFirst, hne, ih h.2]

lemma mem_sortedPlayers {ps : List (String × Player)} {q : String × Player} :
    q ∈ sortedPlayers ps ↔ q ∈ ps ∧ q.2.online = true := by
  unfold sortedPlayers
  rw [List.mem_insertionSort, List.mem_filter]

lemma sortedPlayers_perm (ps : List (String × Player)) :
    List.Perm (sortedPlayers ps) (ps.filter (fun q => q.2.online)) :=
  List.perm_insertionSort radLE _

lemma sortedPlayers_sorted (ps : List (String × Player)) :
    List.Pairwise radLE (sortedPlayers ps) :=
  List.sorted_insertionSort radLE _

lemma nodup_keysOf_sortedPlayers {ps : List (String × Player)}
    (h : (keysOf ps).Nodup) : (keysOf (sortedPlayers ps)).Nodup := by
  have hperm : List.Perm (keysOf (sortedPlayers ps))
      (keysOf (ps.filter (fun q => q.2.online))) :=
    (sortedPlayers_perm ps).map Prod.fst
  have hsub : List.Sublist (keysOf (ps.filter (fun q => q.2.online))) (keysOf ps) :=
    (List.filter_sublist ps).map Prod.fst
  exact hperm.nodup_iff.mpr (hsub.nodup h)

lemma sortedPlayers_nil : sortedPlayers [] = [] := by
  simp [sortedPlayers]

lemma any_keysOf_eq {ps : List (String × Player)} {pid : String} :
    (ps.any fun q => q.1 = pid) = true ↔ pid ∈ keysOf ps := by
  simp only [List.any_eq_true, decide_eq_true_eq, mem_keysOf_iff]
  constructor
  · rintro ⟨q, hq, rfl⟩
    exact ⟨q.2, hq⟩
  · rintro ⟨v, hv⟩
    exact ⟨(pid, v), hv, rfl⟩

lemma playerGarbagePass_cons_of_mem {ps : List (String × Player)} {pid : String}
    (rest : List (String × PMesh)) (m : PMesh) (h : pid ∈ keysOf ps) :
    playerGarbagePass ((pid, m) :: rest) ps
      = ((pid, m) :: (playerGarbagePass rest ps).1, (playerGarbagePass rest ps).2) := by
  simp [playerGarbagePass, any_keysOf_eq.mpr h]

lemma playerGarbagePass_cons_of_not_mem {ps : List (String × Player)} {pid : String}
    (rest : List (String × PMesh)) (m : PMesh) (h : pid ∉ keysOf ps) :
    playerGarbagePass ((pid, m) :: rest) ps
      = ((playerGarbagePass rest ps).1, POp.sceneRemove pid :: (playerGarbagePass rest ps).2) := by
  have hb : (ps.any fun r => r.1 = pid) = false := by
    rw [← Bool.not_eq_true]
    exact fun hc => h (any_keysOf_eq.mp hc)
  simp [playerGarbagePass, hb]

lemma mem_keysOf_playerGarbagePass {meshes : List (String × PMesh)}
    {ps : List (String × Player)} {x : String} :
    x ∈ keysOf (playerGarbagePass meshes ps).1 ↔ x ∈ keysOf meshes ∧ x ∈ keysOf ps := by
  induction meshes with
  | nil => simp [playerGarbagePass, keysOf]
  | cons q rest ih =>
    obtain ⟨pid, m⟩ := q
    by_cases h : pid ∈ keysOf ps
    · rw [playerGarbagePass_cons_of_mem rest m h]
      simp only [keysOf, List.map_cons, List.mem_cons] at ih ⊢
      rw [ih]
      constructor
      · rintro (rfl | ⟨h1, h2⟩)
        · exact ⟨Or.inl rfl, h⟩
        · exact ⟨Or.inr h1, h2⟩
      · rintro ⟨rfl | h1, h2⟩
        · exact Or.inl rfl
        · exact Or.inr ⟨h1, h2⟩
    · rw [playerGarbagePass_cons_of_not_mem rest m h]
      simp only [keysOf, List.map_cons, List.mem_cons] at ih ⊢
      rw [ih]
      constructor
      · rintro ⟨h1, h2⟩
        exact ⟨Or.inr h1, h2⟩
      · rintro ⟨rfl | h1, h2⟩
        · exact absurd h2 h
        · exact ⟨h1, h2⟩

lemma playerGarbagePass_ops {meshes : List (String × PMesh)}
    {ps : List (String × Player)} {op : POp}
    (hop : op ∈ (playerGarbagePass meshes ps).2) :
    ∃ pid, op = POp.sceneRemove pid := by
  induction meshes with
  | nil => simp [playerGarbagePass] at hop
  | cons q rest ih =>
    obtain ⟨pid, m⟩ := q
    by_cases h : pid ∈ keysOf ps
    · rw [playerGarbagePass_cons_of_mem rest m h] at hop
      exact ih hop
    · rw [playerGarbagePass_cons_of_not_mem rest m h] at hop
      rcases List.mem_cons.mp hop with rfl | hop2
      · exact ⟨pid, rfl⟩
      · exact ih hop2

lemma playerGarbagePass_of_subset {meshes : List (String × PMesh)}
    {ps : List (String × Player)}
    (h : ∀ x ∈ keysOf meshes, x ∈ keysOf ps) :
    playerGarbagePass meshes ps = (meshes, []) := by
  induction meshes with
  | nil => simp [playerGarbagePass]
  | cons q rest ih =>
    obtain ⟨pid, m⟩ := q
    have hpid : pid ∈ keysOf ps := h pid (by simp [keysOf])
    have hrest : ∀ x ∈ keysOf rest, x ∈ keysOf ps := by
      intro x hx
      exact h x (by simp [keysOf] at hx ⊢; exact Or.inr hx)
    simp [playerGarbagePass, any_keysOf_eq.mpr hpid, ih hrest]

lemma playerGarbagePass_nil_snapshot (meshes : List (String × PMesh)) :
    (playerGarbagePass meshes []).1 = [] := by
  induction meshes with
  | nil => simp [playerGarbagePass]
  | cons q rest ih =>
    obtain ⟨pid, m⟩ := q
    simp [playerGarbagePass, ih]

lemma contains_iff_mem {ids : List ℕ} {x : ℕ} :
    ids.contains x = true ↔ x ∈ ids :=
  List.elem_iff

lemma foodGarbagePass_cons_of_mem {ids : List ℕ} {fid : ℕ}
    (rest : List (ℕ × FMesh)) (m : FMesh) (h : fid ∈ ids) :
    foodGarbagePass ((fid, m) :: rest) ids
      = ((fid, m) :: (foodGarbagePass rest ids).1, (foodGarbagePass rest ids).2) := by
  simp [foodGarbagePass, contains_iff_mem.mpr h, h]

lemma foodGarbagePass_cons_of_not_mem {ids : List ℕ} {fid : ℕ}
    (rest : List (ℕ × FMesh)) (m : FMesh) (h : fid ∉ ids) :
    foodGarbagePass ((fid, m) :: rest) ids
      = ((foodGarbagePass rest ids).1,
         FOp.sceneRemove fid :: FOp.disposeGeom fid :: FOp.disposeMat fid
           :: (foodGarbagePass rest ids).2) := by
  have hb : ids.contains fid = false := by
    rw [← Bool.not_eq_true]
    exact fun hc => h (contains_iff_mem.mp hc)
  simp [foodGarbagePass, hb, h]

lemma mem_keysOf_foodGarbagePass {meshes : List (ℕ × FMesh)}
    {ids : List ℕ} {x : ℕ} :
    x ∈ keysOf (foodGarbagePass meshes ids).1 ↔ x ∈ keysOf meshes ∧ x ∈ ids := by
  induction meshes with
  | nil => simp [foodGarbagePass, keysOf]
  | cons q rest ih =>
    obtain ⟨fid, m⟩ := q
    by_cases h : fid ∈ ids
    · rw [foodGarbagePass_cons_of_mem rest m h]
      simp only [keysOf, List.map_cons, List.mem_cons] at ih ⊢
      rw [ih]
      constructor
      · rintro (rfl | ⟨h1, h2⟩)
        · exact ⟨Or.inl rfl, h⟩
        · exact ⟨Or.inr h1, h2⟩
      · rintro ⟨rfl | h1, h2⟩
        · exact Or.inl rfl
        · exact Or.inr ⟨h1, h2⟩
    · rw [foodGarbagePass_cons_of_not_mem rest m h]
      simp only [keysOf, List.map_cons, List.mem_cons] at ih ⊢
      rw [ih]
      constructor
      · rintro ⟨h1, h2⟩
        exact ⟨Or.inr h1, h2⟩
      · rintro ⟨rfl | h1, h2⟩
        · exact absurd h2 h
        · exact ⟨h1, h2⟩

lemma foodGarbagePass_disposes {meshes : List (ℕ × FMesh)} {ids : List ℕ} {fid : ℕ}
    (hmem : fid ∈ keysOf meshes) (habs : fid ∉ ids) :
    FOp.disposeGeom fid ∈ (foodGarbagePass meshes ids).2
      ∧ FOp.disposeMat fid ∈ (foodGarbagePass meshes ids).2 := by
  induction meshes with
  | nil => simp [keysOf] at hmem
  | cons q rest ih =>
    obtain ⟨fid0, m⟩ := q
    simp only [keysOf, List.map_cons, List.mem_cons] at hmem
    by_cases h : fid0 ∈ ids
    · rw [foodGarbagePass_cons_of_mem rest m h]
      rcases hmem with rfl | hmem
      · exact absurd h habs
      · exact ih hmem
    · rw [foodGarbagePass_cons_of_not_mem rest m h]
      rcases hmem with rfl | hmem
      · exact ⟨by simp, by simp⟩
      · rcases ih hmem with ⟨h1, h2⟩
        exact ⟨by simp [h1], by simp [h2]⟩

lemma foodGarbagePass_of_subset {meshes : List (ℕ × FMesh)} {ids : List ℕ}
    (h : ∀ x ∈ keysOf meshes, x ∈ ids) :
    foodGarbagePass meshes ids = (meshes, []) := by
  induction meshes with
  | nil => simp [foodGarbagePass]
  | cons q rest ih =>
    obtain ⟨fid, m⟩ := q
    have hfid : fid ∈ ids := h fid (by simp [keysOf])
    have hrest : ∀ x ∈ keysOf rest, x ∈ ids := by
      intro x hx
      exact h x (by simp [keysOf] at hx ⊢; exact Or.inr hx)
    rw [foodGarbagePass_cons_of_mem rest m hfid, ih hrest]

lemma foodGarbagePass_nil_snapshot (meshes : List (ℕ × FMesh)) :
    (foodGarbagePass meshes []).1 = [] := by
  induction meshes with
  | nil => simp [foodGarbagePass]
  | cons q rest ih =>
    obtain ⟨fid, m⟩ := q
    simp [foodGarbagePass, ih]

lemma mem_keysOf_playerUpsertStep {myId : String} {st : PlayerRecState}
    {pid x : String} {p : Player} :
    x ∈ keysOf (playerUpsertStep myId st pid p).1.meshes
      ↔ x ∈ keysOf st.meshes ∨ x = pid := by
  unfold playerUpsertStep
  cases plookup st.meshes pid with
  | none => exact mem_keysOf_jsMapSet
  | some mesh => exact mem_keysOf_jsMapSet

lemma mem_keysOf_playerUpsertPass {myId : String} {st : PlayerRecState}
    {l : List (String × Player)} {x : String} :
    x ∈ keysOf (playerUpsertPass myId st l).1.meshes
      ↔ x ∈ keysOf st.meshes ∨ x ∈ keysOf l := by
  induction l generalizing st with
  | nil => simp [playerUpsertPass, keysOf]
  | cons q rest ih =>
    obtain ⟨pid, p⟩ := q
    simp only [playerUpsertPass]
    rw [ih, mem_keysOf_playerUpsertStep]
    simp only [keysOf, List.map_cons, List.mem_cons]
    tauto

lemma playerUpsertStep_myPlayer_of_ne {myId : String} {st : PlayerRecState}
    {pid : String} {p : Player} (h : pid ≠ myId) :
    (playerUpsertStep myId st pid p).1.myPlayer = st.myPlayer := by
  unfold playerUpsertStep
  cases plookup st.meshes pid with
  | none => simp [h]
  | some mesh => simp

lemma playerUpsertPass_myPlayer_of_ne {myId : String} {st : PlayerRecState}
    {l : List (String × Player)} (h : ∀ q ∈ l, q.1 ≠ myId) :
    (playerUpsertPass myId st l).1.myPlayer = st.myPlayer := by
  induction l generalizing st with
  | nil => simp [playerUpsertPass]
  | cons q rest ih =>
    obtain ⟨pid, p⟩ := q
    simp only [playerUpsertPass]
    rw [ih (fun r hr => h r (List.mem_cons_of_mem _ hr)),
      playerUpsertStep_myPlayer_of_ne (h (pid, p) (List.mem_cons_self _ _))]

lemma plookup_eq_none {κ α : Type} [DecidableEq κ] {m : List (κ × α)} {k : κ} :
    plookup m k = none ↔ k ∉ keysOf m := by
  induction m with
  | nil => simp [plookup, keysOf]
  | cons q rest ih =>
    obtain ⟨k0, v0⟩ := q
    by_cases h : k0 = k
    · subst h
      simp [plookup, keysOf]
    · have hsymm : k ≠ k0 := fun hh => h hh.symm
      simp [plookup, h, keysOf, ih, hsymm]

lemma playerUpsertStep_meshes_shape (myId : String) (st : PlayerRecState)
    (pid : String) (p : Player) :
    ∃ mesh, (playerUpsertStep myId st pid p).1.meshes = jsMapSet st.meshes pid mesh
      ∧ mesh.currentRadius = p.radius ∧ mesh.currentColor = p.color := by
  unfold playerUpsertStep
  cases plookup st.meshes pid with
  | none => exact ⟨_, rfl, rfl, rfl⟩
  | some mesh => exact ⟨_, rfl, rfl, rfl⟩

lemma plookup_playerUpsertStep_self (myId : String) (st : PlayerRecState)
    (pid : String) (p : Player) :
    ∃ m, plookup (playerUpsertStep myId st pid p).1.meshes pid = some m
      ∧ m.currentRadius = p.radius ∧ m.currentColor = p.color := by
  obtain ⟨mesh, hshape, hr, hc⟩ := playerUpsertStep_meshes_shape myId st pid p
  refine ⟨mesh, ?_, hr, hc⟩
  rw [hshape, plookup_jsMapSet]
  simp

lemma plookup_playerUpsertStep_other {myId : String} {st : PlayerRecState}
    {pid x : String} {p : Player} (h : x ≠ pid) :
    plookup (playerUpsertStep myId st pid p).1.meshes x = plookup st.meshes x := by
  have hpx : pid ≠ x := fun hh => h hh.symm
  unfold playerUpsertStep
  cases plookup st.meshes pid with
  | none => simp [plookup_jsMapSet, hpx]
  | some mesh => simp [plookup_jsMapSet, hpx]

lemma plookup_playerUpsertPass_not_mem {myId : String} {st : PlayerRecState}
    {l : List (String × Player)} {x : String} (h : x ∉ keysOf l) :
    plookup (playerUpsertPass myId st l).1.meshes x = plookup st.meshes x := by
  induction l generalizing st with
  | nil => simp [playerUpsertPass]
  | cons q rest ih =>
    obtain ⟨pid, p⟩ := q
    simp only [keysOf, List.map_cons, List.mem_cons, not_or] at h
    simp only [playerUpsertPass]
    rw [ih (by simpa [keysOf] using h.2), plookup_playerUpsertStep_other h.1]

/-- Every entry of `l` already has a mesh whose cached radius and color
agree with the entry's current attributes. -/
def CacheMatched (meshes : List (String × PMesh)) (l : List (String × Player)) : Prop :=
  ∀ q ∈ l, ∃ m, plookup meshes q.1 = some m
    ∧ m.currentRadius = q.2.radius ∧ m.currentColor = q.2.color

lemma playerUpsertStep_of_matched {myId : String} {st : PlayerRecState}
    {pid : String} {p : Player} {m : PMesh}
    (hm : plookup st.meshes pid = some m)
    (hr : m.currentRadius = p.radius) (hc : m.currentColor = p.color) :
    (playerUpsertStep myId st pid p).2 = [] := by
  unfold playerUpsertStep
  rw [hm]
  simp [hr, hc]

lemma playerUpsertPass_ops_of_matched {myId : String} {st : PlayerRecState}
    {l : List (String × Player)} (h : CacheMatched st.meshes l) :
    (playerUpsertPass myId st l).2 = [] := by
  induction l generalizing st with
  | nil => simp [playerUpsertPass]
  | cons q0 rest ih =>
    obtain ⟨pid, p⟩ := q0
    obtain ⟨m, hm, hr, hc⟩ := h (pid, p) (List.mem_cons_self _ _)
    have hops : (playerUpsertStep myId st pid p).2 = [] :=
      playerUpsertStep_of_matched hm hr hc
    obtain ⟨mesh, hshape, hmr, hmc⟩ := playerUpsertStep_meshes_shape myId st pid p
    have hrest : CacheMatched (playerUpsertStep myId st pid p).1.meshes rest := by
      intro q hq
      obtain ⟨m0, hm0, hr0, hc0⟩ := h q (List.mem_cons_of_mem _ hq)
      by_cases hx : q.1 = pid
      · refine ⟨mesh, ?_, ?_, ?_⟩
        · rw [hshape, plookup_jsMapSet]
          simp [hx]
        · have hmm : m0 = m := by
            rw [hx] at hm0
            exact Option.some.inj (hm0.symm.trans hm)
          rw [hmr, ← hr, ← hmm, hr0]
        · have hmm : m0 = m := by
            rw [hx] at hm0
            exact Option.some.inj (hm0.symm.trans hm)
          rw [hmc, ← hc, ← hmm, hc0]
      · exact ⟨m0, by rw [plookup_playerUpsertStep_other hx]; exact hm0, hr0, hc0⟩
    simp only [playerUpsertPass]
    rw [hops, ih hrest]
    simp

lemma playerUpsertPass_cache {myId : String} {st : PlayerRecState}
    {l : List (String × Player)} (hnd : (keysOf l).Nodup) :
    CacheMatched (playerUpsertPass myId st l).1.meshes l := by
  induction l generalizing st with
  | nil => intro q hq; simp at hq
  | cons q0 rest ih =>
    obtain ⟨pid, p⟩ := q0
    simp only [keysOf, List.map_cons, List.nodup_cons] at hnd
    intro q hq
    rcases List.mem_cons.mp hq with heq | hq2
    · subst heq
      obtain ⟨m, hm, hr, hc⟩ :=
        plookup_playerUpsertStep_self myId st pid p
      refine ⟨m, ?_, hr, hc⟩
      simp only [playerUpsertPass]
      rw [plookup_playerUpsertPass_not_mem (by simpa [keysOf] using hnd.1)]
      exact hm
    · have := @ih (playerUpsertStep myId st pid p).1 (by simpa [keysOf] using hnd.2)
      simpa only [playerUpsertPass] using this q hq2

lemma mem_keysOf_foodUpsertStep {meshes : List (ℕ × FMesh)} {f : Food} {x : ℕ} :
    x ∈ keysOf (foodUpsertStep meshes f).1 ↔ x ∈ keysOf meshes ∨ x = f.id := by
  unfold foodUpsertStep
  cases plookup meshes f.id with
  | none => exact mem_keysOf_jsMapSet
  | some m => exact mem_keysOf_jsMapSet

lemma mem_keysOf_foodUpsertPass {meshes : List (ℕ × FMesh)} {l : List Food} {x : ℕ} :
    x ∈ keysOf (foodUpsertPass meshes l).1
      ↔ x ∈ keysOf meshes ∨ x ∈ l.map Food.id := by
  induction l generalizing meshes with
  | nil => simp [foodUpsertPass]
  | cons f rest ih =>
    simp only [foodUpsertPass]
    rw [ih, mem_keysOf_foodUpsertStep]
    simp only [List.map_cons, List.mem_cons]
    tauto

lemma foodUpsertStep_of_mem {meshes : List (ℕ × FMesh)} {f : Food}
    (h : f.id ∈ keysOf meshes) : (foodUpsertStep meshes f).2 = [] := by
  unfold foodUpsertStep
  cases hcase : plookup meshes f.id with
  | none => exact absurd h (plookup_eq_none.mp hcase)
  | some m0 => simp

lemma foodUpsertPass_ops_of_subset {meshes : List (ℕ × FMesh)} {l : List Food}
    (h : ∀ f ∈ l, f.id ∈ keysOf meshes) :
    (foodUpsertPass meshes l).2 = [] := by
  induction l generalizing meshes with
  | nil => simp [foodUpsertPass]
  | cons f rest ih =>
    have hf : f.id ∈ keysOf meshes := h f (List.mem_cons_self _ _)
    have hops : (foodUpsertStep meshes f).2 = [] := foodUpsertStep_of_mem hf
    have hrest : ∀ g ∈ rest, g.id ∈ keysOf (foodUpsertStep meshes f).1 := by
      intro g hg
      exact mem_keysOf_foodUpsertStep.mpr (Or.inl (h g (List.mem_cons_of_mem _ hg)))
    simp only [foodUpsertPass]
    rw [hops, ih hrest]
    simp

lemma mem_keysOf_sortedPlayers {ps : List (String × Player)} {x : String} :
    x ∈ keysOf (sortedPlayers ps) ↔ ∃ p, (x, p) ∈ ps ∧ p.online = true := by
  rw [mem_keysOf_iff]
  constructor
  · rintro ⟨p, hp⟩
    rcases mem_sortedPlayers.mp hp with ⟨hmem, hon⟩
    exact ⟨p, hmem, hon⟩
  · rintro ⟨p, hmem, hon⟩
    exact ⟨p, mem_sortedPlayers.mpr ⟨hmem, hon⟩⟩

lemma mem_keysOf_playerReconcile {myId : String} {st : PlayerRecState}
    {ps : List (String × Player)} {x : String} :
    x ∈ keysOf (playerReconcile myId st ps).1.meshes
      ↔ (x ∈ keysOf st.meshes ∧ x ∈ keysOf ps)
        ∨ ∃ p, (x, p) ∈ ps ∧ p.online = true := by
  unfold playerReconcile
  rw [mem_keysOf_playerUpsertPass]
  rw [mem_keysOf_playerGarbagePass, mem_keysOf_sortedPlayers]

lemma mem_keysOf_foodReconcile {meshes : List (ℕ × FMesh)} {food : List Food} {x : ℕ} :
    x ∈ keysOf (foodReconcile meshes food).1 ↔ x ∈ food.map Food.id := by
  unfold foodReconcile
  rw [mem_keysOf_foodUpsertPass]
  rw [mem_keysOf_foodGarbagePass]
  tauto

lemma playerReconcile_keys_subset {myId : String} {st : PlayerRecState}
    {ps : List (String × Player)} {x : String}
    (h : x ∈ keysOf (playerReconcile myId st ps).1.meshes) : x ∈ keysOf ps := by
  rcases mem_keysOf_playerReconcile.mp h with ⟨_, h2⟩ | ⟨p, hmem, _⟩
  · exact h2
  · exact mem_keysOf_iff.mpr ⟨p, hmem⟩

lemma playerReconcile_def (myId : String) (st : PlayerRecState)
    (ps : List (String × Player)) :
    playerReconcile myId st ps
      = ((playerUpsertPass myId { st with meshes := (playerGarbagePass st.meshes ps).1 }
            (sortedPlayers ps)).1,
         (playerGarbagePass st.meshes ps).2
           ++ (playerUpsertPass myId { st with meshes := (playerGarbagePass st.meshes ps).1 }
                 (sortedPlayers ps)).2) :=
  rfl

lemma foodReconcile_def (meshes : List (ℕ × FMesh)) (food : List Food) :
    foodReconcile meshes food
      = ((foodUpsertPass (foodGarbagePass meshes (food.map Food.id)).1 food).1,
         (foodGarbagePass meshes (food.map Food.id)).2
           ++ (foodUpsertPass (foodGarbagePass meshes (food.map Food.id)).1 food).2) :=
  rfl

lemma playerReconcile_second_ops {myId : String} {st : PlayerRecState}
    {ps : List (String × Player)} (hnd : (keysOf ps).Nodup) :
    (playerReconcile myId (playerReconcile myId st ps).1 ps).2 = [] := by
  set st1 := (playerReconcile myId st ps).1 with hst1
  have hsub : ∀ x ∈ keysOf st1.meshes, x ∈ keysOf ps := by
    intro x hx
    exact playerReconcile_keys_subset (hst1 ▸ hx)
  have hgarbage : playerGarbagePass st1.meshes ps = (st1.meshes, []) :=
    playerGarbagePass_of_subset hsub
  have hnd2 : (keysOf (sortedPlayers ps)).Nodup := nodup_keysOf_sortedPlayers hnd
  have hcache : CacheMatched st1.meshes (sortedPlayers ps) := by
    rw [hst1, playerReconcile_def]
    exact playerUpsertPass_cache hnd2
  rw [playerReconcile_def, hgarbage]
  simpa using @playerUpsertPass_ops_of_matched myId st1 (sortedPlayers ps) hcache

lemma foodReconcile_second_ops (meshes : List (ℕ × FMesh)) (food : List Food) :
    (foodReconcile (foodReconcile meshes food).1 food).2 = [] := by
  set m1 := (foodReconcile meshes food).1 with hm1
  have hsub : ∀ x ∈ keysOf m1, x ∈ food.map Food.id := by
    intro x hx
    exact mem_keysOf_foodReconcile.mp (hm1 ▸ hx)
  have hgarbage : foodGarbagePass m1 (food.map Food.id) = (m1, []) :=
    foodGarbagePass_of_subset hsub
  have hupsert : (foodUpsertPass m1 food).2 = [] := by
    apply foodUpsertPass_ops_of_subset
    intro f hf
    rw [hm1]
    exact mem_keysOf_foodReconcile.mpr (List.mem_map.mpr ⟨f, hf, rfl⟩)
  rw [foodReconcile_def, hgarbage]
  simpa using hupsert

lemma playerReconcile_empty_meshes (myId : String) (st : PlayerRecState) :
    (playerReconcile myId st []).1.meshes = [] := by
  rw [playerReconcile_def, sortedPlayers_nil]
  simp [playerUpsertPass, playerGarbagePass_nil_snapshot]

lemma playerReconcile_ops_of_no_meshes {myId : String} {st : PlayerRecState}
    (h : st.meshes = []) : (playerReconcile myId st []).2 = [] := by
  rw [playerReconcile_def, sortedPlayers_nil, h]
  simp [playerUpsertPass, playerGarbagePass]

lemma foodReconcile_empty_meshes (meshes : List (ℕ × FMesh)) :
    (foodReconcile meshes []).1 = [] := by
  rw [foodReconcile_def]
  simp [foodUpsertPass, foodGarbagePass_nil_snapshot]

lemma foodReconcile_ops_of_no_meshes {meshes : List (ℕ × FMesh)}
    (h : meshes = []) : (foodReconcile meshes []).2 = [] := by
  rw [foodReconcile_def, h]
  simp [foodUpsertPass, foodGarbagePass]

lemma foodReconcile_empty_disposes {meshes : List (ℕ × FMesh)} {fid : ℕ}
    (hmem : fid ∈ keysOf meshes) :
    FOp.disposeGeom fid ∈ (foodReconcile meshes []).2
      ∧ FOp.disposeMat fid ∈ (foodReconcile meshes []).2 := by
  rw [foodReconcile_def]
  rcases foodGarbagePass_disposes hmem (List.not_mem_nil fid) with ⟨h1, h2⟩
  exact ⟨List.mem_append_left _ h1, List.mem_append_left _ h2⟩

lemma localOnlineB_eq_true {myId : String} {ps : List (String × Player)} :
    localOnlineB myId ps = true ↔ ∃ p, (myId, p) ∈ ps ∧ p.online = true := by
  unfold localOnlineB
  rw [List.any_eq_true]
  constructor
  · rintro ⟨q, hq, hcond⟩
    simp only [decide_eq_true_eq] at hcond
    obtain ⟨q1, q2⟩ := q
    rcases hcond with ⟨rfl, hon⟩
    exact ⟨q2, hq, hon⟩
  · rintro ⟨p, hp, hon⟩
    exact ⟨(myId, p), hp, by simp [hon]⟩

lemma playerReconcile_myPlayer_of_no_online {myId : String} {st : PlayerRecState}
    {ps : List (String × Player)} (h : localOnlineB myId ps = false) :
    (playerReconcile myId st ps).1.myPlayer = st.myPlayer := by
  rw [playerReconcile_def]
  apply playerUpsertPass_myPlayer_of_ne
  intro q hq heq
  rcases mem_sortedPlayers.mp hq with ⟨hmem, hon⟩
  have htrue : localOnlineB myId ps = true := by
    rw [localOnlineB_eq_true]
    exact ⟨q.2, by rw [← heq]; exact hmem, hon⟩
  rw [h] at htrue
  cases htrue

lemma sawOnlineB_eq_true {myId : String} {es : List GEvent} :
    sawOnlineB myId es = true
      ↔ ∃ ps, GEvent.reconcile ps ∈ es ∧ ∃ p, (myId, p) ∈ ps ∧ p.online = true := by
  unfold sawOnlineB
  rw [List.any_eq_true]
  constructor
  · rintro ⟨e, he, hcond⟩
    cases e with
    | reconcile ps => exact ⟨ps, he, localOnlineB_eq_true.mp hcond⟩
    | tick keys t => simp at hcond
  · rintro ⟨ps, hps, hex⟩
    exact ⟨GEvent.reconcile ps, hps, localOnlineB_eq_true.mpr hex⟩

lemma tickSend_of_myPlayer_none {keys : List String} {t : ℚ}
    {ps : List (String × Player)} {myId : String} :
    tickSend keys t none ps myId = none := by
  simp [tickSend]

lemma tickSend_some_imp {keys : List String} {t : ℚ} {myP : Option Player}
    {ps : List (String × Player)} {myId : String} {pos : Pos}
    (h : tickSend keys t myP ps myId = some pos) :
    keys ≠ [] ∧ myP.isSome = true ∧ (plookup ps myId).isSome = true := by
  unfold tickSend at h
  by_cases h1 : myP.isSome = true ∧ keys ≠ []
  · refine ⟨h1.2, h1.1, ?_⟩
    rw [if_pos h1] at h
    by_cases h2 : deltaX keys t ≠ 0 ∨ deltaY keys t ≠ 0
    · rw [if_pos h2] at h
      cases hlk : plookup ps myId with
      | none => rw [hlk] at h; cases h
      | some cp => simp [hlk]
    · rw [if_neg h2] at h
      cases h
  · rw [if_neg h1] at h
    cases h

lemma tickSend_eq_clamped {keys : List String} {t : ℚ} {myP : Option Player}
    {ps : List (String × Player)} {myId : String} {pos : Pos}
    (h : tickSend keys t myP ps myId = some pos) :
    ∃ cp, plookup ps myId = some cp
      ∧ pos = { x := clampQ (-(WORLD_SIZE / 2)) (WORLD_SIZE / 2) (cp.position.x + deltaX keys t),
                y := clampQ (-(WORLD_SIZE / 2)) (WORLD_SIZE / 2) (cp.position.y + deltaY keys t) } := by
  unfold tickSend at h
  by_cases h1 : myP.isSome = true ∧ keys ≠ []
  · rw [if_pos h1] at h
    by_cases h2 : deltaX keys t ≠ 0 ∨ deltaY keys t ≠ 0
    · rw [if_pos h2] at h
      cases hlk : plookup ps myId with
      | none => rw [hlk] at h; cases h
      | some cp =>
        rw [hlk] at h
        exact ⟨cp, rfl, (Option.some.inj h).symm⟩
    · rw [if_neg h2] at h
      cases h
  · rw [if_neg h1] at h
    cases h

lemma tickSend_none_of_zero_delta {keys : List String} {t : ℚ} {myP : Option Player}
    {ps : List (String × Player)} {myId : String}
    (hx : deltaX keys t = 0) (hy : deltaY keys t = 0) :
    tickSend keys t myP ps myId = none := by
  unfold tickSend
  by_cases h1 : myP.isSome = true ∧ keys ≠ []
  · rw [if_pos h1, if_neg]
    push_neg
    exact ⟨hx, hy⟩
  · rw [if_neg h1]

lemma le_clampQ (lo hi x : ℚ) : lo ≤ clampQ lo hi x :=
  le_max_left _ _

lemma clampQ_le {lo hi : ℚ} (x : ℚ) (h : lo ≤ hi) : clampQ lo hi x ≤ hi :=
  max_le h (min_le_left _ _)

lemma cameraTargetGen_eq_clamp (ws cs : ℚ) (p : Pos) :
    cameraTargetGen ws cs p
      = { x := clampQ (-(ws / 2) + cs) (ws / 2 - cs) p.x,
          y := clampQ (-(ws / 2) + cs) (ws / 2 - cs) p.y } :=
  rfl

lemma cameraTargetGen_degenerate {ws cs : ℚ} (p : Pos) (h : ws < 2 * cs) :
    cameraTargetGen ws cs p = { x := cs - ws / 2, y := cs - ws / 2 } := by
  rw [cameraTargetGen_eq_clamp]
  have hlt : ws / 2 - cs < -(ws / 2) + cs := by linarith
  have hx : clampQ (-(ws / 2) + cs) (ws / 2 - cs) p.x = cs - ws / 2 := by
    unfold clampQ
    rw [max_eq_left (le_trans (min_le_left _ _) (le_of_lt hlt))]
    ring
  have hy : clampQ (-(ws / 2) + cs) (ws / 2 - cs) p.y = cs - ws / 2 := by
    unfold clampQ
    rw [max_eq_left (le_trans (min_le_left _ _) (le_of_lt hlt))]
    ring
  rw [hx, hy]

lemma stepG_tick_camera {myId : String} {st : GState} {keys : List String} {t : ℚ}
    {mp : Player} {cp : Player}
    (hmp : st.prs.myPlayer = some mp) (hlk : plookup st.players myId = some cp) :
    (stepG myId st (GEvent.tick keys t)).camera = cameraTarget cp.position
      ∧ (stepG myId st (GEvent.tick keys t)).prs.myPlayer = some cp := by
  unfold stepG
  rw [hmp, hlk]
  exact ⟨rfl, rfl⟩

lemma stepG_tick_sent (myId : String) (st : GState) (keys : List String) (t : ℚ) :
    (stepG myId st (GEvent.tick keys t)).sent
      = st.sent ++ (tickSend keys t st.prs.myPlayer st.players myId).toList := by
  unfold stepG
  cases hmp : st.prs.myPlayer with
  | none =>
    cases hlk : plookup st.players myId with
    | none => rfl
    | some cp => rfl
  | some mp =>
    cases hlk : plookup st.players myId with
    | none => rfl
    | some cp => rfl

lemma stepG_tick_of_myPlayer_none (myId : String) (st : GState)
    (keys : List String) (t : ℚ) (h : st.prs.myPlayer = none) :
    (stepG myId st (GEvent.tick keys t)).prs = st.prs
      ∧ (stepG myId st (GEvent.tick keys t)).sent = st.sent := by
  unfold stepG
  rw [h]
  cases hlk : plookup st.players myId with
  | none =>
    refine ⟨rfl, ?_⟩
    show st.sent ++ (tickSend keys t none st.players myId).toList = st.sent
    rw [tickSend_of_myPlayer_none]
    simp
  | some cp =>
    refine ⟨rfl, ?_⟩
    show st.sent ++ (tickSend keys t none st.players myId).toList = st.sent
    rw [tickSend_of_myPlayer_none]
    simp

lemma foldl_stepG_no_online {myId : String} (es : List GEvent) (st : GState)
    (hsaw : sawOnlineB myId es = false) (hmy : st.prs.myPlayer = none) :
    (es.foldl (stepG myId) st).prs.myPlayer = none
      ∧ (es.foldl (stepG myId) st).sent = st.sent := by
  induction es generalizing st with
  | nil => exact ⟨hmy, rfl⟩
  | cons e rest ih =>
    cases e with
    | reconcile ps =>
      have hsplit : (localOnlineB myId ps || sawOnlineB myId rest) = false := hsaw
      obtain ⟨hloc, hrest⟩ := Bool.or_eq_false_iff.mp hsplit
      have hstep : (stepG myId st (GEvent.reconcile ps)).prs.myPlayer = none := by
        unfold stepG
        rw [playerReconcile_myPlayer_of_no_online hloc]
        exact hmy
      have hsent : (stepG myId st (GEvent.reconcile ps)).sent = st.sent := rfl
      rw [List.foldl_cons]
      rcases ih (stepG myId st (GEvent.reconcile ps)) hrest hstep with ⟨h1, h2⟩
      exact ⟨h1, h2.trans hsent⟩
    | tick keys t =>
      have hsplit : (false || sawOnlineB myId rest) = false := hsaw
      obtain ⟨_, hrest⟩ := Bool.or_eq_false_iff.mp hsplit
      obtain ⟨hprs, hsent⟩ := stepG_tick_of_myPlayer_none myId st keys t hmy
      rw [List.foldl_cons]
      have hstep : (stepG myId st (GEvent.tick keys t)).prs.myPlayer = none := by
        rw [hprs]
        exact hmy
      rcases ih (stepG myId st (GEvent.tick keys t)) hrest hstep with ⟨h1, h2⟩
      exact ⟨h1, h2.trans hsent⟩

/-- Local identity used in concrete scenarios. -/
def meId : String := "me"

/-- A remote player id used in concrete scenarios. -/
def pid1 : String := "p1"

/-- A sample online local player. -/
def samplePlayer : Player :=
  { identityHex := meId
    position := ⟨0, 0⟩
    radius := 10
    color := ⟨200, 50, 50⟩
    score := 0
    online := true }

/-- A sample offline player stored under `pid1`. -/
def samplePlayerOffline : Player :=
  { samplePlayer with identityHex := pid1, online := false }

/-- A sample player mesh matching `samplePlayer`'s attributes. -/
def sampleMesh : PMesh :=
  { currentRadius := 10, currentColor := ⟨200, 50, 50⟩, pos := ⟨0, 0⟩, outline := none }

/-- A sample food item with id 7. -/
def sampleFood : Food :=
  { id := 7, position := ⟨1, 2⟩, color := ⟨10, 20, 30⟩ }

/-- A sample food mesh matching `sampleFood`. -/
def sampleFMesh : FMesh :=
  { color := ⟨10, 20, 30⟩, pos := ⟨1, 2⟩ }

/-- The sample local player moved to `(450, 450)`. -/
def samplePlayerAt : Player :=
  { samplePlayer with position := ⟨450, 450⟩ }

/-- C1 counterexample: the claim says an offline player present in the
store has no render resource after reconciliation, but the player garbage
pass only removes meshes whose id is absent from the store, so a player
that goes offline while staying in the store keeps its mesh: reconciling
the mesh map `[(pid1, sampleMesh)]` against a store in which `pid1` is
present but offline leaves `pid1` owned although no player is online. -/
theorem c1_convergence_counterexample :
    pid1 ∈ keysOf (playerReconcile meId
        { meshes := [(pid1, sampleMesh)], myPlayer := none }
        [(pid1, samplePlayerOffline)]).1.meshes
      ∧ ∀ p, (pid1, p) ∈ [(pid1, samplePlayerOffline)] → p.online = false := by
  constructor
  · rw [mem_keysOf_playerReconcile]
    exact Or.inl ⟨by simp [keysOf], by simp [keysOf]⟩
  · intro p hp
    rcases List.mem_cons.mp hp with heq | habs
    · rw [show p = samplePlayerOffline from congrArg Prod.snd heq]
      rfl
    · cases habs

/-- C1 (amended): after a reconciliation pass, the owned food-mesh ids are
exactly the ids in the food snapshot; the owned player-mesh ids are the
store keys that are online, together with previously owned keys that are
still present in the store (an offline player keeps an existing mesh until
its row is deleted; a player inserted offline never gets one). -/
theorem c1_convergence (myId : String) (st : PlayerRecState)
    (ps : List (String × Player)) (fm : List (ℕ × FMesh)) (food : List Food)
    (x : String) (fid : ℕ) :
    (x ∈ keysOf (playerReconcile myId st ps).1.meshes
       ↔ (x ∈ keysOf st.meshes ∧ x ∈ keysOf ps)
         ∨ ∃ p, (x, p) ∈ ps ∧ p.online = true)
    ∧ (fid ∈ keysOf (foodReconcile fm food).1 ↔ fid ∈ food.map Food.id) :=
  ⟨mem_keysOf_playerReconcile, mem_keysOf_foodReconcile⟩

/-- C2 counterexample: the claim says every removal disposes geometry and
material, but the player garbage pass (Game.tsx 122–128) only calls
`scene.remove` and deletes the map entry: reconciling one owned player
mesh against an empty store performs exactly one scene removal and no
dispose operation. -/
theorem c2_disposal_counterexample :
    (playerReconcile meId { meshes := [(pid1, sampleMesh)], myPlayer := none } []).2
        = [POp.sceneRemove pid1]
      ∧ POp.disposeGeom pid1
          ∉ (playerReconcile meId { meshes := [(pid1, sampleMesh)], myPlayer := none } []).2 := by
  have hops : (playerReconcile meId { meshes := [(pid1, sampleMesh)], myPlayer := none } []).2
      = [POp.sceneRemove pid1] := by
    rw [playerReconcile_def, sortedPlayers_nil]
    simp [playerGarbagePass, playerUpsertPass]
  refine ⟨hops, ?_⟩
  rw [hops]
  simp

/-- C2 (amended): removal disposes resources for food only — when a food
id leaves the snapshot, its geometry and material are disposed and the id
leaves the owned map; the player garbage pass, by contrast, emits only
scene removals and never disposes geometry or material (nor the outline
ring) when dropping a player mesh. -/
theorem c2_disposal_on_removal (meshes : List (String × PMesh))
    (ps : List (String × Player)) (fm : List (ℕ × FMesh)) (food : List Food)
    (fid : ℕ) (op : POp)
    (hmem : fid ∈ keysOf fm) (habs : fid ∉ food.map Food.id)
    (hop : op ∈ (playerGarbagePass meshes ps).2) :
    FOp.disposeGeom fid ∈ (foodReconcile fm food).2
      ∧ FOp.disposeMat fid ∈ (foodReconcile fm food).2
      ∧ fid ∉ keysOf (foodReconcile fm food).1
      ∧ ∃ pid, op = POp.sceneRemove pid := by
  rcases foodGarbagePass_disposes hmem habs with ⟨h1, h2⟩
  refine ⟨?_, ?_, ?_, playerGarbagePass_ops hop⟩
  · rw [foodReconcile_def]
    exact List.mem_append_left _ h1
  · rw [foodReconcile_def]
    exact List.mem_append_left _ h2
  · rw [mem_keysOf_foodReconcile]
    exact habs

/-- C2 witness: the amended theorem applied to one owned food mesh (id 7)
removed by an empty snapshot and one player mesh removed by an empty
store. -/
theorem c2_disposal_witness :
    FOp.disposeGeom 7 ∈ (foodReconcile [(7, sampleFMesh)] []).2
      ∧ FOp.disposeMat 7 ∈ (foodReconcile [(7, sampleFMesh)] []).2
      ∧ (7 : ℕ) ∉ keysOf (foodReconcile [(7, sampleFMesh)] []).1
      ∧ ∃ pid, POp.sceneRemove pid1 = POp.sceneRemove pid :=
  c2_disposal_on_removal [(pid1, sampleMesh)] [] [(7, sampleFMesh)] [] 7
    (POp.sceneRemove pid1) (by simp [keysOf]) (by simp)
    (by rw [playerGarbagePass_cons_of_not_mem [] sampleMesh (by simp [keysOf])]; simp)

/-- C3 counterexample: the claim says an update notification for an
unknown key behaves as an insert, but `useFood`'s update handler is a
no-op when `findIndex` misses: updating food id 7 into an empty store
leaves the store empty, unlike inserting it. -/
theorem c3_upsert_counterexample :
    applyFoodEvent [] (FoodEvent.update sampleFood sampleFood) = []
      ∧ (7 : ℕ) ∉ (applyFoodEvent [] (FoodEvent.update sampleFood sampleFood)).map Food.id
      ∧ applyFoodEvent [] (FoodEvent.insert sampleFood) = [sampleFood] := by
  refine ⟨rfl, ?_, rfl⟩
  simp [applyFoodEvent, foodReplaceFirst]

/-- C3 (amended): the player store (a JS Map) never holds two entries
under one key and treats an update with an unknown old key exactly as an
insert (full replace); the food store (an array) ignores an update whose
old id is absent — the id is not inserted — and keeps its ids duplicate
free only when insert notifications carry fresh ids. -/
theorem c3_upsert_invariant (m : List (String × Player)) (e : PlayerEvent)
    (oldP newP : Player) (l : List Food) (oldF newF : Food) (f : Food)
    (hnd : (keysOf m).Nodup)
    (hold : oldP.identityHex ∉ keysOf m)
    (holdF : oldF.id ∉ l.map Food.id)
    (hndF : (l.map Food.id).Nodup) (hfresh : f.id ∉ l.map Food.id) :
    (keysOf (applyPlayerEvent m e)).Nodup
    ∧ applyPlayerEvent m (PlayerEvent.update oldP newP)
        = applyPlayerEvent m (PlayerEvent.insert newP)
    ∧ applyFoodEvent l (FoodEvent.update oldF newF) = l
    ∧ ((applyFoodEvent l (FoodEvent.insert f)).map Food.id).Nodup := by
  refine ⟨?_, ?_, ?_, ?_⟩
  · cases e with
    | insert p => exact nodup_keysOf_jsMapSet hnd
    | update oldQ newQ => exact nodup_keysOf_jsMapSet (nodup_keysOf_jsMapDelete hnd)
    | delete p => exact nodup_keysOf_jsMapDelete hnd
  · show jsMapSet (jsMapDelete m oldP.identityHex) newP.identityHex newP
        = jsMapSet m newP.identityHex newP
    rw [jsMapDelete_of_not_mem hold]
  · exact foodReplaceFirst_of_not_mem holdF
  · show ((l ++ [f]).map Food.id).Nodup
    rw [List.map_append]
    simp [List.nodup_append, hndF, hfresh]

/-- C3 witness: the amended theorem at an empty store for both kinds. -/
theorem c3_upsert_witness :
    (keysOf (applyPlayerEvent [] (PlayerEvent.insert samplePlayer))).Nodup
    ∧ applyPlayerEvent [] (PlayerEvent.update samplePlayer samplePlayer)
        = applyPlayerEvent [] (PlayerEvent.insert samplePlayer)
    ∧ applyFoodEvent [] (FoodEvent.update sampleFood sampleFood) = []
    ∧ ((applyFoodEvent [] (FoodEvent.insert sampleFood)).map Food.id).Nodup :=
  c3_upsert_invariant [] (PlayerEvent.insert samplePlayer) samplePlayer samplePlayer
    [] sampleFood sampleFood sampleFood
    (by simp [keysOf]) (by simp [keysOf]) (by simp) (by simp) (by simp)

/-- C4: movement-prediction postcondition — the axis deltas are the signed
sums of the active key contributions scaled by `MOVE_SPEED * t`; a tick
whose deltas are both zero sends nothing; and a sent position is the
store's local-player position plus the delta, clamped per axis to
`[-WORLD_SIZE/2, WORLD_SIZE/2]`, hence always within world bounds. -/
theorem c4_movement_predictor (keys : List String) (t : ℚ) (myP : Option Player)
    (ps : List (String × Player)) (myId : String) :
    (deltaX keys t
        = (if keys.contains keyD then MOVE_SPEED * t else 0)
          - (if keys.contains keyA then MOVE_SPEED * t else 0))
    ∧ (deltaY keys t
        = (if keys.contains keyW then MOVE_SPEED * t else 0)
          - (if keys.contains keyS then MOVE_SPEED * t else 0))
    ∧ (deltaX keys t = 0 ∧ deltaY keys t = 0 → tickSend keys t myP ps myId = none)
    ∧ (∀ pos, tickSend keys t myP ps myId = some pos →
        ∃ cp, plookup ps myId = some cp
          ∧ pos.x = clampQ (-(WORLD_SIZE / 2)) (WORLD_SIZE / 2) (cp.position.x + deltaX keys t)
          ∧ pos.y = clampQ (-(WORLD_SIZE / 2)) (WORLD_SIZE / 2) (cp.position.y + deltaY keys t)
          ∧ -(WORLD_SIZE / 2) ≤ pos.x ∧ pos.x ≤ WORLD_SIZE / 2
          ∧ -(WORLD_SIZE / 2) ≤ pos.y ∧ pos.y ≤ WORLD_SIZE / 2) := by
  have hwle : -(WORLD_SIZE / 2) ≤ WORLD_SIZE / 2 := by norm_num [WORLD_SIZE]
  refine ⟨by unfold deltaX; ring, by unfold deltaY; ring, ?_, ?_⟩
  · rintro ⟨hx, hy⟩
    exact tickSend_none_of_zero_delta hx hy
  · intro pos hsend
    rcases tickSend_eq_clamped hsend with ⟨cp, hlk, hpos⟩
    refine ⟨cp, hlk, ?_, ?_, ?_, ?_, ?_, ?_⟩
    · rw [hpos]
    · rw [hpos]
    · rw [hpos]
      exact le_clampQ _ _ _
    · rw [hpos]
      exact clampQ_le _ hwle
    · rw [hpos]
      exact le_clampQ _ _ _
    · rw [hpos]
      exact clampQ_le _ hwle

/-- C4 witness: holding only "d" for one second with the local player at
the origin sends the clamped position `(200, 0)`. -/
theorem c4_movement_witness :
    ∃ cp, plookup [(meId, samplePlayer)] meId = some cp
      ∧ (⟨200, 0⟩ : Pos).x
          = clampQ (-(WORLD_SIZE / 2)) (WORLD_SIZE / 2) (cp.position.x + deltaX [keyD] 1)
      ∧ (⟨200, 0⟩ : Pos).y
          = clampQ (-(WORLD_SIZE / 2)) (WORLD_SIZE / 2) (cp.position.y + deltaY [keyD] 1)
      ∧ -(WORLD_SIZE / 2) ≤ (⟨200, 0⟩ : Pos).x ∧ (⟨200, 0⟩ : Pos).x ≤ WORLD_SIZE / 2
      ∧ -(WORLD_SIZE / 2) ≤ (⟨200, 0⟩ : Pos).y ∧ (⟨200, 0⟩ : Pos).y ≤ WORLD_SIZE / 2 :=
  (c4_movement_predictor [keyD] 1 (some samplePlayer) [(meId, samplePlayer)] meId).2.2.2
    ⟨200, 0⟩
    (by simp [tickSend, deltaX, deltaY, keyA, keyW, keyS, keyD, plookup, samplePlayer,
      clampQ, WORLD_SIZE, MOVE_SPEED]
        norm_num)

/-- C5 counterexample: the claim says that with an inverted clamp range
(world extent smaller than twice the camera half-extent) the camera
centers on the world origin; the code's clamp formula instead pins it to
the lower bound: with world size 100 and camera size 400 a player at the
origin yields camera target `(350, 350)`, not `(0, 0)`. -/
theorem c5_camera_counterexample :
    (100 : ℚ) < 2 * 400
      ∧ cameraTargetGen 100 400 ⟨0, 0⟩ ≠ ({ x := 0, y := 0 } : Pos) := by
  constructor
  · norm_num
  · rw [cameraTargetGen_degenerate ⟨0, 0⟩ (by norm_num)]
    intro hcontra
    have hx := congrArg Pos.x hcontra
    norm_num at hx

/-- C5 (amended): on a tick with `myPlayerRef` set and the local player
present in the store, the camera snaps exactly to the player's position
clamped per axis into
`[-WORLD_SIZE/2 + CAMERA_SIZE, WORLD_SIZE/2 - CAMERA_SIZE]` (no smoothing:
the new camera value does not depend on the old one); when the world
extent is smaller than twice the camera half-extent the code's formula
pins the camera to the lower bound `cameraSize - worldSize/2` on both
axes, not to the world origin. -/
theorem c5_camera_clamp (st : GState) (keys : List String) (t : ℚ)
    (mp cp : Player) (p : Pos) (myId : String) (ws cs : ℚ)
    (hmp : st.prs.myPlayer = some mp)
    (hlk : plookup st.players myId = some cp)
    (hdeg : ws < 2 * cs) :
    (stepG myId st (GEvent.tick keys t)).camera = cameraTarget cp.position
    ∧ cameraTarget p
        = { x := clampQ (-(WORLD_SIZE / 2) + CAMERA_SIZE) (WORLD_SIZE / 2 - CAMERA_SIZE) p.x,
            y := clampQ (-(WORLD_SIZE / 2) + CAMERA_SIZE) (WORLD_SIZE / 2 - CAMERA_SIZE) p.y }
    ∧ cameraTargetGen ws cs p = { x := cs - ws / 2, y := cs - ws / 2 } :=
  ⟨(stepG_tick_camera hmp hlk).1, rfl, cameraTargetGen_degenerate p hdeg⟩

/-- C5 witness: a tick with the local player at `(450, 450)` snaps the
camera to the clamped target, and the degenerate range pins to the lower
bound at world size 100 / camera size 400. -/
theorem c5_camera_witness :
    (stepG meId
        { prs := { meshes := [], myPlayer := some samplePlayer }
          players := [(meId, samplePlayerAt)]
          camera := ⟨0, 0⟩
          sent := [] }
        (GEvent.tick [] 1)).camera
        = cameraTarget samplePlayerAt.position
    ∧ cameraTarget (⟨450, 450⟩ : Pos)
        = { x := clampQ (-(WORLD_SIZE / 2) + CAMERA_SIZE) (WORLD_SIZE / 2 - CAMERA_SIZE)
              (⟨450, 450⟩ : Pos).x,
            y := clampQ (-(WORLD_SIZE / 2) + CAMERA_SIZE) (WORLD_SIZE / 2 - CAMERA_SIZE)
              (⟨450, 450⟩ : Pos).y }
    ∧ cameraTargetGen 100 400 ⟨450, 450⟩ = { x := 400 - 100 / 2, y := 400 - 100 / 2 } :=
  c5_camera_clamp
    { prs := { meshes := [], myPlayer := some samplePlayer }
      players := [(meId, samplePlayerAt)]
      camera := ⟨0, 0⟩
      sent := [] }
    [] 1 samplePlayer samplePlayerAt ⟨450, 450⟩ meId 100 400
    rfl (by simp [plookup]) (by norm_num)

/-- C6: opposing held keys cancel exactly — for any elapsed time t ≥ 0,
holding both "a" and "d" gives zero x-delta, and holding both "w" and "s"
gives zero y-delta. -/
theorem c6_cancellation (keys : List String) (t : ℚ) (_h0 : 0 ≤ t) :
    (keys.contains keyA = true → keys.contains keyD = true → deltaX keys t = 0)
    ∧ (keys.contains keyW = true → keys.contains keyS = true → deltaY keys t = 0) := by
  constructor
  · intro h1 h2
    have h1' : keyA ∈ keys := by simpa using h1
    have h2' : keyD ∈ keys := by simpa using h2
    simp [deltaX, h1', h2']
  · intro h1 h2
    have h1' : keyW ∈ keys := by simpa using h1
    have h2' : keyS ∈ keys := by simpa using h2
    simp [deltaY, h1', h2']

/-- C6 witness: all four movement keys held for one second yields zero
delta on both axes. -/
theorem c6_cancellation_witness :
    deltaX [keyA, keyD, keyW, keyS] 1 = 0 ∧ deltaY [keyA, keyD, keyW, keyS] 1 = 0 :=
  ⟨(c6_cancellation [keyA, keyD, keyW, keyS] 1 (by norm_num)).1
      (by simp) (by simp),
   (c6_cancellation [keyA, keyD, keyW, keyS] 1 (by norm_num)).2
      (by simp) (by simp)⟩

lemma playerUpsertStep_existing_ops {myId : String} {st : PlayerRecState}
    {pid : String} {p : Player} {m : PMesh}
    (hm : plookup st.meshes pid = some m) :
    ((∃ r, POp.allocGeom pid r ∈ (playerUpsertStep myId st pid p).2)
        ↔ m.currentRadius ≠ p.radius)
    ∧ (POp.recolorMat pid p.color ∈ (playerUpsertStep myId st pid p).2
        ↔ m.currentColor ≠ p.color) := by
  unfold playerUpsertStep
  rw [hm]
  by_cases hr : m.currentRadius = p.radius <;>
    by_cases hc : m.currentColor = p.color <;>
      by_cases ho : pid = myId ∧ m.outline.isSome = true <;>
        simp [hr, hc, ho]

/-- C7: no redundant rebuild — running a reconciliation twice against the
same snapshot (with duplicate-free player keys, as the map-backed store
guarantees) performs zero operations on the second run, for both kinds;
and for an existing player mesh, a geometry allocation occurs exactly when
the radius differs from the cached value, a material recolor exactly when
the color differs. -/
theorem c7_no_redundant_rebuild (myId : String) (st st2 : PlayerRecState)
    (ps : List (String × Player)) (fm : List (ℕ × FMesh)) (food : List Food)
    (pid : String) (p : Player) (m : PMesh)
    (hnd : (keysOf ps).Nodup) (hm : plookup st2.meshes pid = some m) :
    (playerReconcile myId (playerReconcile myId st ps).1 ps).2 = []
    ∧ (foodReconcile (foodReconcile fm food).1 food).2 = []
    ∧ ((∃ r, POp.allocGeom pid r ∈ (playerUpsertStep myId st2 pid p).2)
        ↔ m.currentRadius ≠ p.radius)
    ∧ (POp.recolorMat pid p.color ∈ (playerUpsertStep myId st2 pid p).2
        ↔ m.currentColor ≠ p.color) :=
  ⟨playerReconcile_second_ops hnd, foodReconcile_second_ops fm food,
   (playerUpsertStep_existing_ops hm).1, (playerUpsertStep_existing_ops hm).2⟩

/-- C7 witness: one online player and one food item, reconciled twice from
an empty scene — the second run of each kind performs no operations; the
cached mesh matching `samplePlayer` triggers no geometry or material work. -/
theorem c7_no_redundant_witness :
    (playerReconcile meId
        (playerReconcile meId { meshes := [], myPlayer := none }
          [(meId, samplePlayer)]).1
        [(meId, samplePlayer)]).2 = []
    ∧ (foodReconcile (foodReconcile [] [sampleFood]).1 [sampleFood]).2 = []
    ∧ ((∃ r, POp.allocGeom pid1 r
          ∈ (playerUpsertStep meId { meshes := [(pid1, sampleMesh)], myPlayer := none }
              pid1 samplePlayer).2)
        ↔ sampleMesh.currentRadius ≠ samplePlayer.radius)
    ∧ (POp.recolorMat pid1 samplePlayer.color
          ∈ (playerUpsertStep meId { meshes := [(pid1, sampleMesh)], myPlayer := none }
              pid1 samplePlayer).2
        ↔ sampleMesh.currentColor ≠ samplePlayer.color) :=
  c7_no_redundant_rebuild meId { meshes := [], myPlayer := none }
    { meshes := [(pid1, sampleMesh)], myPlayer := none }
    [(meId, samplePlayer)] [] [sampleFood] pid1 samplePlayer sampleMesh
    (by simp [keysOf]) (by simp [plookup])

/-- C8: reconciling against an empty snapshot still runs the garbage pass:
it empties the owned map for the kind (players and food alike), disposes
each removed food mesh's geometry and material, and a further
reconciliation against the same empty snapshot performs no operations at
all. -/
theorem c8_empty_snapshot (myId : String) (st : PlayerRecState)
    (fm : List (ℕ × FMesh)) (fid : ℕ) (hmem : fid ∈ keysOf fm) :
    (playerReconcile myId st []).1.meshes = []
    ∧ (playerReconcile myId (playerReconcile myId st []).1 []).2 = []
    ∧ (foodReconcile fm []).1 = []
    ∧ (foodReconcile (foodReconcile fm []).1 []).2 = []
    ∧ FOp.disposeGeom fid ∈ (foodReconcile fm []).2
    ∧ FOp.disposeMat fid ∈ (foodReconcile fm []).2 :=
  ⟨playerReconcile_empty_meshes myId st,
   playerReconcile_ops_of_no_meshes (playerReconcile_empty_meshes myId st),
   foodReconcile_empty_meshes fm,
   foodReconcile_ops_of_no_meshes (foodReconcile_empty_meshes fm),
   (foodReconcile_empty_disposes hmem).1,
   (foodReconcile_empty_disposes hmem).2⟩

/-- C8 witness: a scene owning one player mesh and one food mesh, emptied
by reconciling both kinds against empty snapshots. -/
theorem c8_empty_snapshot_witness :
    (playerReconcile meId { meshes := [(pid1, sampleMesh)], myPlayer := none } []).1.meshes = []
    ∧ (playerReconcile meId
        (playerReconcile meId { meshes := [(pid1, sampleMesh)], myPlayer := none } []).1 []).2 = []
    ∧ (foodReconcile [(7, sampleFMesh)] []).1 = []
    ∧ (foodReconcile (foodReconcile [(7, sampleFMesh)] []).1 []).2 = []
    ∧ FOp.disposeGeom 7 ∈ (foodReconcile [(7, sampleFMesh)] []).2
    ∧ FOp.disposeMat 7 ∈ (foodReconcile [(7, sampleFMesh)] []).2 :=
  c8_empty_snapshot meId { meshes := [(pid1, sampleMesh)], myPlayer := none }
    [(7, sampleFMesh)] 7 (by simp [keysOf])

/-- C9: the upsert pass processes visible players in ascending radius
order — `sortedPlayers` is pairwise ordered by radius and is a permutation
of the online entries of the store, so a larger-radius online player is
always added or updated after every smaller one. -/
theorem c9_upsert_order (ps : List (String × Player)) :
    List.Pairwise (fun a b : String × Player => a.2.radius ≤ b.2.radius)
      (sortedPlayers ps)
    ∧ List.Perm (sortedPlayers ps) (ps.filter (fun q => q.2.online)) :=
  ⟨List.Pairwise.imp (fun h => h) (sortedPlayers_sorted ps), sortedPlayers_perm ps⟩

/-- C10: outbound-send gating — if no reconcile event in the trace ever
carried the local player online, the run sends nothing and `myPlayerRef`
stays null; a set `myPlayerRef` implies such an event occurred; a tick
whose send fires requires held keys, a set `myPlayerRef`, and the local
key present in the store; and a tick appends exactly the movement
prediction's output to the outbound log. -/
theorem c10_send_gating (myId : String) (es : List GEvent)
    (keys : List String) (t : ℚ) :
    ((¬ ∃ ps, GEvent.reconcile ps ∈ es ∧ ∃ p, (myId, p) ∈ ps ∧ p.online = true) →
        (runG myId es).sent = [] ∧ (runG myId es).prs.myPlayer = none)
    ∧ ((runG myId es).prs.myPlayer.isSome = true →
        ∃ ps, GEvent.reconcile ps ∈ es ∧ ∃ p, (myId, p) ∈ ps ∧ p.online = true)
    ∧ (∀ pos, tickSend keys t (runG myId es).prs.myPlayer (runG myId es).players myId
          = some pos →
        keys ≠ [] ∧ (runG myId es).prs.myPlayer.isSome = true
          ∧ (plookup (runG myId es).players myId).isSome = true)
    ∧ (stepG myId (runG myId es) (GEvent.tick keys t)).sent
        = (runG myId es).sent
          ++ (tickSend keys t (runG myId es).prs.myPlayer
                (runG myId es).players myId).toList := by
  have hbase : (¬ ∃ ps, GEvent.reconcile ps ∈ es ∧ ∃ p, (myId, p) ∈ ps ∧ p.online = true) →
      (runG myId es).sent = [] ∧ (runG myId es).prs.myPlayer = none := by
    intro hno
    have hsaw : sawOnlineB myId es = false := by
      rw [← Bool.not_eq_true]
      intro hc
      exact hno (sawOnlineB_eq_true.mp hc)
    obtain ⟨h1, h2⟩ := foldl_stepG_no_online es initG hsaw rfl
    exact ⟨h2, h1⟩
  refine ⟨hbase, ?_, ?_, stepG_tick_sent myId (runG myId es) keys t⟩
  · intro hsome
    by_contra hno
    obtain ⟨_, hnone⟩ := hbase hno
    rw [hnone] at hsome
    cases hsome
  · intro pos hsend
    exact tickSend_some_imp hsend

/-- C10 witness: a trace whose only reconcile carries the local player
offline, followed by a tick with "d" held, sends nothing and leaves
`myPlayerRef` null. -/
theorem c10_send_gating_witness :
    (runG meId [GEvent.reconcile [(meId, { samplePlayer with online := false })],
        GEvent.tick [keyD] 1]).sent = []
    ∧ (runG meId [GEvent.reconcile [(meId, { samplePlayer with online := false })],
        GEvent.tick [keyD] 1]).prs.myPlayer = none :=
  (c10_send_gating meId
      [GEvent.reconcile [(meId, { samplePlayer with online := false })],
       GEvent.tick [keyD] 1] [keyD] 1).1
    (by
      rintro ⟨ps, hps, p, hp, hon⟩
      simp only [List.mem_cons, List.not_mem_nil, or_false] at hps
      rcases hps with hps | hps
      · rcases GEvent.reconcile.inj hps with rfl
        rcases List.mem_cons.mp hp with heq | habs
        · have : p = { samplePlayer with online := false } := congrArg Prod.snd heq
          rw [this] at hon
          cases hon
        · simp at habs
      · cases hps)

end Agario
